import Mathlib

/-!
Shallow embedding of `src/main.rs` from the repository `jmarcher-euler-10`
(Project Euler problem 10: sum of the primes below 2,000,000).

The program defines a trait `Primality { fn is_prime(&self, n: u64) -> bool }`
with five implemented strategies (all zero-sized, stateless structs), a
sieve-backed reference oracle from the external `primal` crate, and a driver
`main` that sums `(1..2_000_000).filter(is_prime)` and prints the result.

Machine integers: the Rust code works on `u64`.  Every arithmetic operation it
performs (`%`, `/`, `+ 1`, `+ 2`, `& 1`, comparisons, and the running sum in
`main`) stays far below `2^64` on the values reached here, so the embedding
uses `Nat` directly; the absence of overflow in the driver's sum is proved
explicitly (`mainSum_lt`).
-/

set_option maxHeartbeats 1000000

/-- Rust `for i in lo..stop { if n % i == 0 { return false; } }; true`
(exclusive upper bound), as used by `NaivePrimality::internal_is_prime`. -/
def trialBelow (n : Nat) (i stop : Nat) : Bool :=
  if i < stop then
    if n % i = 0 then false else trialBelow n (i + 1) stop
  else true
termination_by stop - i

/-- Rust `for i in lo..=limit { if n % i == 0 { return false; } }; true`
(inclusive upper bound), as used by the range-limited strategies. -/
def trialUpto (n : Nat) (i limit : Nat) : Bool :=
  if i ≤ limit then
    if n % i = 0 then false else trialUpto n (i + 1) limit
  else true
termination_by limit + 1 - i

/-- Rust `for i in TestRange::new(limit) { if n % i == 0 { return false; } }; true`
where `TestRange` yields `current, current+2, current+4, ...` while the value
is `≤ limit` (the iterator of `FastLinearPrimality` / `FastNonLinearPrimality`,
started at `current = 3`). -/
def oddTrial (n : Nat) (i limit : Nat) : Bool :=
  if i ≤ limit then
    if n % i = 0 then false else oddTrial n (i + 2) limit
  else true
termination_by limit + 1 - i

namespace NaivePrimality

/-- The inner fn of `NaivePrimality::is_prime`: trial division by every `i in 2..n`. -/
def internal_is_prime (n : Nat) : Bool :=
  trialBelow n 2 n

/-- Embeds `impl Primality for NaivePrimality` (src/main.rs lines 20-37). -/
def is_prime (n : Nat) : Bool :=
  match n with
  | 1 => false
  | 2 => true
  | n => internal_is_prime n

end NaivePrimality

namespace NaivePrimalityWithRangeLimit

/-- Inner fn: `let max = n / 2; for i in 2..=max { ... }`. -/
def internal_is_prime (n : Nat) : Bool :=
  trialUpto n 2 (n / 2)

/-- Embeds `impl Primality for NaivePrimalityWithRangeLimit` (src/main.rs lines 41-59). -/
def is_prime (n : Nat) : Bool :=
  match n with
  | 1 => false
  | 2 => true
  | n => internal_is_prime n

end NaivePrimalityWithRangeLimit

namespace FastLinearPrimality

/-- Inner fn: `let max = n / 3; for i in TestRange::new(max) { ... }`. -/
def internal_is_prime (n : Nat) : Bool :=
  oddTrial n 3 (n / 3)

/-- Embeds `impl Primality for FastLinearPrimality` (src/main.rs lines 63-107).
The guard pattern `n if n & 1 == 0 => false` becomes the `if` in the final arm
(it is only reached once the literal patterns `1`, `2 | 3` have failed). -/
def is_prime (n : Nat) : Bool :=
  match n with
  | 1 => false
  | 2 => true
  | 3 => true
  | n => if n &&& 1 = 0 then false else internal_is_prime n

end FastLinearPrimality

namespace NaivePrimalityWithNonLinearRangeLimit

/-- Inner fn: `let max = (n as f64).sqrt() as u64 + 1; for i in 2..=max { ... }`.
The bound `(n as f64).sqrt() as u64` is embedded as `Nat.sqrt n`: for every
`n < 2^52` the conversion `n as f64` is exact and the IEEE-754 correctly
rounded square root truncates to the integer square root, so on the whole
range this program ever exercises (`n < 2_000_000`) the two coincide.  The
claims about the floating-point expression itself are treated separately. -/
def internal_is_prime (n : Nat) : Bool :=
  trialUpto n 2 (Nat.sqrt n + 1)

/-- Embeds `impl Primality for NaivePrimalityWithNonLinearRangeLimit`
(src/main.rs lines 111-129). -/
def is_prime (n : Nat) : Bool :=
  match n with
  | 1 => false
  | 2 => true
  | n => internal_is_prime n

end NaivePrimalityWithNonLinearRangeLimit

namespace FastNonLinearPrimality

/-- Inner fn: `let max = (n as f64).sqrt() as u64 + 1; for i in TestRange::new(max)`.
The float square root is embedded as `Nat.sqrt` exactly as in
`NaivePrimalityWithNonLinearRangeLimit.internal_is_prime` (exact for `n < 2^52`). -/
def internal_is_prime (n : Nat) : Bool :=
  oddTrial n 3 (Nat.sqrt n + 1)

/-- Embeds `impl Primality for FastNonLinearPrimality` (src/main.rs lines 133-177). -/
def is_prime (n : Nat) : Bool :=
  match n with
  | 1 => false
  | 2 => true
  | 3 => true
  | n => if n &&& 1 = 0 then false else internal_is_prime n

end FastNonLinearPrimality

namespace SievePrimality

/-- Modelled from the spec: `SievePrimality` wraps a `primal::Sieve` built up to
`limit` at construction (src/main.rs lines 179-191); the sieve's code lives in
the external `primal` crate, not in this repository.  Per the spec (§4.1, §6)
the sieve is an Eratosthenes-style table such that, for every query within the
precomputed limit, `is_prime(n)` returns whether `n` is prime; queries beyond
the limit are out of contract.  The model records the `limit` of the instance
and answers true primality; every claim below queries it only within limit. -/
def is_prime (limit : Nat) (n : Nat) : Bool :=
  decide (Nat.Prime n)

end SievePrimality

namespace UnimplementedPrimality

/-- Modelled from the spec: one strategy variant of the repository (present in
another snapshot of this near-duplicate program, not under `src/`)
"intentionally has no working body and must abort the process immediately and
loudly if invoked" (spec §7) — a Rust `unimplemented!()`-style panic.  The
abort is embedded as a fallible result: the call never produces a `Bool`
answer, so the codomain is `Option Bool` and the body is always `none`. -/
def is_prime (_ : Nat) : Option Bool :=
  none

end UnimplementedPrimality

/-- The body of `main` (src/main.rs lines 9-16), abstracted over the strategy
wired in as `filter`: `(1..2_000_000).filter(|&n| filter.is_prime(n)).sum()`.
Rust `1..2_000_000` is the list `[1, 2, ..., 1_999_999]`, i.e.
`List.range' 1 1999999`. -/
def driverSum (oracle : Nat → Bool) : Nat :=
  ((List.range' 1 1999999).filter oracle).sum

/-- The sum actually computed by `main`, which wires in `FastNonLinearPrimality`. -/
def mainSum : Nat :=
  driverSum FastNonLinearPrimality.is_prime

/-- The program's entire standard output: `println!("{}", sum)` prints the
decimal representation of the sum followed by a single newline. -/
def mainOutput : String :=
  toString mainSum ++ "\n"

/-- Two successive calls of the same oracle on the same input, in order: the
observable results of the repeated-query experiment of spec §8 (idempotence).
Every strategy's `is_prime` takes `&self` and the structs have no interior
mutability, so a call cannot change the instance; in the embedding an oracle
is therefore a function and a repeated call is a repeated application. -/
def twoCalls (oracle : Nat → Bool) (n : Nat) : Bool × Bool :=
  (oracle n, oracle n)

namespace FastLinearPrimality

/-- Instrumented variant of the `TestRange` loop: also counts how many trial
divisions (`n % i == 0` tests inside the loop) are performed. -/
def oddTrialCount (n : Nat) (i limit : Nat) : Bool × Nat :=
  if i ≤ limit then
    if n % i = 0 then (false, 1)
    else
      let r := oddTrialCount n (i + 2) limit
      (r.1, r.2 + 1)
  else (true, 0)
termination_by limit + 1 - i

/-- Instrumented `FastLinearPrimality.is_prime`: same control flow, but paired
with the number of trial divisions performed.  The even-`n` arm returns without
ever constructing the `TestRange`, so its count is 0 by the structure of the
code. -/
def is_primeCount (n : Nat) : Bool × Nat :=
  match n with
  | 1 => (false, 0)
  | 2 => (true, 0)
  | 3 => (true, 0)
  | n => if n &&& 1 = 0 then (false, 0) else oddTrialCount n 3 (n / 3)

end FastLinearPrimality

namespace FastNonLinearPrimality

/-- Instrumented `FastNonLinearPrimality.is_prime`, analogous to
`FastLinearPrimality.is_primeCount`. -/
def is_primeCount (n : Nat) : Bool × Nat :=
  match n with
  | 1 => (false, 0)
  | 2 => (true, 0)
  | 3 => (true, 0)
  | n =>
    if n &&& 1 = 0 then (false, 0)
    else FastLinearPrimality.oddTrialCount n 3 (Nat.sqrt n + 1)

end FastNonLinearPrimality

/-! ## Loop unfolding and characterisation lemmas -/

theorem trialBelow_unfold (n i stop : Nat) :
    trialBelow n i stop =
      if i < stop then
        if n % i = 0 then false else trialBelow n (i + 1) stop
      else true := by
  rw [trialBelow]

theorem trialUpto_unfold (n i limit : Nat) :
    trialUpto n i limit =
      if i ≤ limit then
        if n % i = 0 then false else trialUpto n (i + 1) limit
      else true := by
  rw [trialUpto]

theorem oddTrial_unfold (n i limit : Nat) :
    oddTrial n i limit =
      if i ≤ limit then
        if n % i = 0 then false else oddTrial n (i + 2) limit
      else true := by
  rw [oddTrial]

/-- The exclusive-bound loop returns true iff no tested candidate divides. -/
theorem trialBelow_eq_true (n i stop : Nat) :
    trialBelow n i stop = true ↔ ∀ j, i ≤ j → j < stop → n % j ≠ 0 := by
  rw [trialBelow]
  split
  · rename_i hlt
    split
    · rename_i hdvd
      simp only [Bool.false_eq_true, false_iff]
      intro h
      exact h i le_rfl hlt hdvd
    · rename_i hdvd
      rw [trialBelow_eq_true n (i + 1) stop]
      constructor
      · intro h j hij hjs
        rcases Nat.eq_or_lt_of_le hij with rfl | hij'
        · exact hdvd
        · exact h j hij' hjs
      · intro h j hij hjs
        exact h j (by omega) hjs
  · rename_i hge
    simp only [true_iff]
    intro j hij hjs
    omega
termination_by stop - i

/-- The inclusive-bound loop returns true iff no tested candidate divides. -/
theorem trialUpto_eq_true (n i limit : Nat) :
    trialUpto n i limit = true ↔ ∀ j, i ≤ j → j ≤ limit → n % j ≠ 0 := by
  rw [trialUpto]
  split
  · rename_i hle
    split
    · rename_i hdvd
      simp only [Bool.false_eq_true, false_iff]
      intro h
      exact h i le_rfl hle hdvd
    · rename_i hdvd
      rw [trialUpto_eq_true n (i + 1) limit]
      constructor
      · intro h j hij hjl
        rcases Nat.eq_or_lt_of_le hij with rfl | hij'
        · exact hdvd
        · exact h j hij' hjl
      · intro h j hij hjl
        exact h j (by omega) hjl
  · rename_i hgt
    simp only [true_iff]
    intro j hij hjl
    omega
termination_by limit + 1 - i

/-- The odd-step loop returns true iff no candidate of the form `i + 2k` within
the limit divides. -/
theorem oddTrial_eq_true (n i limit : Nat) :
    oddTrial n i limit = true ↔
      ∀ j, (∃ k, j = i + 2 * k) → j ≤ limit → n % j ≠ 0 := by
  rw [oddTrial]
  split
  · rename_i hle
    split
    · rename_i hdvd
      simp only [Bool.false_eq_true, false_iff]
      intro h
      exact h i ⟨0, by omega⟩ hle hdvd
    · rename_i hdvd
      rw [oddTrial_eq_true n (i + 2) limit]
      constructor
      · intro h j hk hjl
        obtain ⟨k, rfl⟩ := hk
        match k with
        | 0 =>
          simpa using hdvd
        | k + 1 =>
          exact h (i + 2 * (k + 1)) ⟨k, by omega⟩ hjl
      · intro h j hk hjl
        obtain ⟨k, rfl⟩ := hk
        exact h (i + 2 + 2 * k) ⟨k + 1, by omega⟩ hjl
  · rename_i hgt
    simp only [true_iff]
    intro j hk hjl
    obtain ⟨k, rfl⟩ := hk
    omega
termination_by limit + 1 - i

/-- Instrumented odd-step loop computes the same verdict as `oddTrial`. -/
theorem oddTrialCount_fst (n i limit : Nat) :
    (FastLinearPrimality.oddTrialCount n i limit).1 = oddTrial n i limit := by
  rw [FastLinearPrimality.oddTrialCount, oddTrial]
  split
  · split
    · rfl
    · simpa using oddTrialCount_fst n (i + 2) limit
  · rfl
termination_by limit + 1 - i

/-! ## Arithmetic helpers -/

/-- A boolean equals `decide p` as soon as its truth is equivalent to `p`. -/
theorem eq_decide_of_iff {b : Bool} {p : Prop} [Decidable p]
    (h : b = true ↔ p) : b = decide p := by
  by_cases hp : p
  · rw [decide_eq_true hp]
    exact h.mpr hp
  · rcases hb : b with _ | _
    · rw [decide_eq_false hp]
    · exact absurd (h.mp hb) hp

theorem sqrt_add_one_lt {n : Nat} (h : 3 ≤ n) : Nat.sqrt n + 1 < n := by
  have h1 : Nat.sqrt n < n - 1 := by
    rw [Nat.sqrt_lt]
    have h2 : 2 ≤ n - 1 := by omega
    calc n < 2 * (n - 1) := by omega
    _ ≤ (n - 1) * (n - 1) := Nat.mul_le_mul_right _ h2
  omega

theorem not_prime_of_even_ge4 {n : Nat} (h4 : 4 ≤ n) (he : n % 2 = 0) :
    ¬ Nat.Prime n := by
  intro hp
  rcases hp.eq_one_or_self_of_dvd 2 (Nat.dvd_of_mod_eq_zero he) with h | h <;> omega

/-- An odd number's minimal factor is an odd prime `≥ 3` of the form `3 + 2k`. -/
theorem minFac_odd_facts {n : Nat} (h5 : 5 ≤ n) (ho : n % 2 = 1) :
    3 ≤ n.minFac ∧ n.minFac % 2 = 1 ∧ (∃ k, n.minFac = 3 + 2 * k) ∧
      n % n.minFac = 0 := by
  have hpp := Nat.minFac_prime (show n ≠ 1 by omega)
  have hdvd : n.minFac ∣ n := Nat.minFac_dvd n
  have hne2 : n.minFac ≠ 2 := by
    intro h2
    rw [h2] at hdvd
    have := Nat.mod_eq_zero_of_dvd hdvd
    omega
  have hodd : n.minFac % 2 = 1 := (hpp.eq_two_or_odd).resolve_left hne2
  have h2le := hpp.two_le
  have h3le : 3 ≤ n.minFac := by omega
  exact ⟨h3le, hodd, ⟨(n.minFac - 3) / 2, by omega⟩, Nat.mod_eq_zero_of_dvd hdvd⟩

/-! ## Each strategy computes primality (on positive inputs) -/

/-- Strategy `NaivePrimality::is_prime` agrees with mathematical primality for `n ≥ 1`. -/
theorem naive_is_prime_eq {n : Nat} (h : 1 ≤ n) :
    NaivePrimality.is_prime n = decide (Nat.Prime n) := by
  apply eq_decide_of_iff
  match n, h with
  | 1, _ => simp [NaivePrimality.is_prime, Nat.not_prime_one]
  | 2, _ =>
    simpa [NaivePrimality.is_prime] using Nat.prime_two
  | m + 3, _ =>
    show trialBelow (m + 3) 2 (m + 3) = true ↔ _
    rw [trialBelow_eq_true, Nat.prime_def_lt']
    constructor
    · intro hnd
      exact ⟨by omega, fun j h2 hlt hdvd => hnd j h2 hlt (Nat.mod_eq_zero_of_dvd hdvd)⟩
    · rintro ⟨-, hnd⟩ j h2 hlt hmod
      exact hnd j h2 hlt (Nat.dvd_of_mod_eq_zero hmod)

/-- Strategy `NaivePrimalityWithRangeLimit::is_prime` agrees with primality for `n ≥ 1`. -/
theorem rangeLimit_is_prime_eq {n : Nat} (h : 1 ≤ n) :
    NaivePrimalityWithRangeLimit.is_prime n = decide (Nat.Prime n) := by
  apply eq_decide_of_iff
  match n, h with
  | 1, _ => simp [NaivePrimalityWithRangeLimit.is_prime, Nat.not_prime_one]
  | 2, _ =>
    simpa [NaivePrimalityWithRangeLimit.is_prime] using Nat.prime_two
  | m + 3, _ =>
    show trialUpto (m + 3) 2 ((m + 3) / 2) = true ↔ _
    rw [trialUpto_eq_true]
    constructor
    · intro hnd
      by_contra hnp
      have hpp := Nat.minFac_prime (show m + 3 ≠ 1 by omega)
      have h2le := hpp.two_le
      have hmf := Nat.minFac_le_div (show 0 < m + 3 by omega) hnp
      have hdiv : (m + 3) / (m + 3).minFac ≤ (m + 3) / 2 :=
        Nat.div_le_div_left h2le (by omega)
      exact hnd (m + 3).minFac h2le (le_trans hmf hdiv)
        (Nat.mod_eq_zero_of_dvd (Nat.minFac_dvd _))
    · intro hp j h2 hjl hmod
      have hjlt : j < m + 3 :=
        lt_of_le_of_lt hjl (Nat.div_lt_self (by omega) (by omega))
      rcases hp.eq_one_or_self_of_dvd j (Nat.dvd_of_mod_eq_zero hmod) with h | h <;> omega

/-- Strategy `NaivePrimalityWithNonLinearRangeLimit::is_prime` agrees with primality
for `n ≥ 1`. -/
theorem nonLinear_is_prime_eq {n : Nat} (h : 1 ≤ n) :
    NaivePrimalityWithNonLinearRangeLimit.is_prime n = decide (Nat.Prime n) := by
  apply eq_decide_of_iff
  match n, h with
  | 1, _ => simp [NaivePrimalityWithNonLinearRangeLimit.is_prime, Nat.not_prime_one]
  | 2, _ =>
    simpa [NaivePrimalityWithNonLinearRangeLimit.is_prime] using Nat.prime_two
  | m + 3, _ =>
    show trialUpto (m + 3) 2 (Nat.sqrt (m + 3) + 1) = true ↔ _
    rw [trialUpto_eq_true]
    constructor
    · intro hnd
      rw [Nat.prime_def_le_sqrt]
      refine ⟨by omega, fun j h2 hle hdvd => ?_⟩
      exact hnd j h2 (le_trans hle (Nat.le_succ _)) (Nat.mod_eq_zero_of_dvd hdvd)
    · intro hp j h2 hjl hmod
      have hs : Nat.sqrt (m + 3) + 1 < m + 3 := sqrt_add_one_lt (by omega)
      rcases hp.eq_one_or_self_of_dvd j (Nat.dvd_of_mod_eq_zero hmod) with h | h <;> omega

/-- Strategy `FastLinearPrimality::is_prime` agrees with primality for `n ≥ 1`. -/
theorem fastLinear_is_prime_eq {n : Nat} (h : 1 ≤ n) :
    FastLinearPrimality.is_prime n = decide (Nat.Prime n) := by
  apply eq_decide_of_iff
  match n, h with
  | 1, _ => simp [FastLinearPrimality.is_prime, Nat.not_prime_one]
  | 2, _ => simpa [FastLinearPrimality.is_prime] using Nat.prime_two
  | 3, _ => simpa [FastLinearPrimality.is_prime] using Nat.prime_three
  | m + 4, _ =>
    show (if (m + 4) &&& 1 = 0 then false
          else FastLinearPrimality.internal_is_prime (m + 4)) = true ↔ _
    rw [Nat.and_one_is_mod]
    by_cases hev : (m + 4) % 2 = 0
    · rw [if_pos hev]
      simp only [Bool.false_eq_true, false_iff]
      exact not_prime_of_even_ge4 (by omega) hev
    · rw [if_neg hev]
      have ho : (m + 4) % 2 = 1 := by omega
      show oddTrial (m + 4) 3 ((m + 4) / 3) = true ↔ _
      rw [oddTrial_eq_true]
      constructor
      · intro hnd
        by_contra hnp
        obtain ⟨h3le, hodd, hform, hmod⟩ := minFac_odd_facts (by omega) ho
        have hdvd : (m + 4).minFac ∣ m + 4 := Nat.minFac_dvd _
        obtain ⟨q, hq⟩ : ∃ q, (m + 4).minFac * q = m + 4 :=
          ⟨(m + 4) / (m + 4).minFac, Nat.mul_div_cancel' hdvd⟩
        have hqdvd : q ∣ m + 4 := ⟨(m + 4).minFac, by rw [mul_comm]; exact hq.symm⟩
        have hq1 : q ≠ 1 := by
          intro h1
          rw [h1, mul_one] at hq
          exact hnp (hq ▸ Nat.minFac_prime (show m + 4 ≠ 1 by omega))
        have hq0 : q ≠ 0 := by
          intro h0
          rw [h0, mul_zero] at hq
          omega
        have hqodd : q % 2 = 1 := by
          rcases Nat.even_or_odd q with hq2 | hq2
          · obtain ⟨t, ht⟩ := hq2
            have : 2 ∣ m + 4 := Dvd.dvd.trans ⟨t, by omega⟩ hqdvd
            have := Nat.mod_eq_zero_of_dvd this
            omega
          · obtain ⟨t, ht⟩ := hq2
            omega
        have hq3 : 3 ≤ q := by omega
        have hple : (m + 4).minFac ≤ (m + 4) / 3 := by
          rw [Nat.le_div_iff_mul_le (by omega : 0 < 3)]
          calc (m + 4).minFac * 3 ≤ (m + 4).minFac * q :=
            Nat.mul_le_mul_left _ hq3
          _ = m + 4 := hq
        exact hnd (m + 4).minFac hform hple hmod
      · intro hp j hform hjle hmod
        obtain ⟨k, rfl⟩ := hform
        have hjlt : 3 + 2 * k < m + 4 :=
          lt_of_le_of_lt hjle (Nat.div_lt_self (by omega) (by omega))
        rcases hp.eq_one_or_self_of_dvd _ (Nat.dvd_of_mod_eq_zero hmod) with h | h <;> omega

/-- Strategy `FastNonLinearPrimality::is_prime` agrees with primality for `n ≥ 1`. -/
theorem fastNonLinear_is_prime_eq {n : Nat} (h : 1 ≤ n) :
    FastNonLinearPrimality.is_prime n = decide (Nat.Prime n) := by
  apply eq_decide_of_iff
  match n, h with
  | 1, _ => simp [FastNonLinearPrimality.is_prime, Nat.not_prime_one]
  | 2, _ => simpa [FastNonLinearPrimality.is_prime] using Nat.prime_two
  | 3, _ => simpa [FastNonLinearPrimality.is_prime] using Nat.prime_three
  | m + 4, _ =>
    show (if (m + 4) &&& 1 = 0 then false
          else FastNonLinearPrimality.internal_is_prime (m + 4)) = true ↔ _
    rw [Nat.and_one_is_mod]
    by_cases hev : (m + 4) % 2 = 0
    · rw [if_pos hev]
      simp only [Bool.false_eq_true, false_iff]
      exact not_prime_of_even_ge4 (by omega) hev
    · rw [if_neg hev]
      have ho : (m + 4) % 2 = 1 := by omega
      show oddTrial (m + 4) 3 (Nat.sqrt (m + 4) + 1) = true ↔ _
      rw [oddTrial_eq_true]
      constructor
      · intro hnd
        by_contra hnp
        obtain ⟨h3le, hodd, hform, hmod⟩ := minFac_odd_facts (by omega) ho
        have hsq : (m + 4).minFac ^ 2 ≤ m + 4 :=
          Nat.minFac_sq_le_self (by omega) hnp
        have hple : (m + 4).minFac ≤ Nat.sqrt (m + 4) := Nat.le_sqrt'.mpr hsq
        exact hnd (m + 4).minFac hform (le_trans hple (Nat.le_succ _)) hmod
      · intro hp j hform hjle hmod
        obtain ⟨k, rfl⟩ := hform
        have hs : Nat.sqrt (m + 4) + 1 < m + 4 := sqrt_add_one_lt (by omega)
        rcases hp.eq_one_or_self_of_dvd _ (Nat.dvd_of_mod_eq_zero hmod) with h | h <;> omega

/-! ## Driver lemmas -/

/-- Strategies that agree on every `n ≥ 1` are interchangeable in `main`: the
driver only ever queries the oracle on `1 ≤ n < 2_000_000`. -/
theorem driverSum_congr {f g : Nat → Bool} (h : ∀ n, 1 ≤ n → f n = g n) :
    driverSum f = driverSum g := by
  unfold driverSum
  congr 1
  refine List.filter_congr ?_
  intro x hx
  rw [List.mem_range'] at hx
  obtain ⟨i, hi, rfl⟩ := hx
  exact h _ (by omega)

theorem list_sum_le_mul {l : List Nat} {c : Nat} (h : ∀ x ∈ l, x ≤ c) :
    l.sum ≤ c * l.length := by
  induction l with
  | nil => simp
  | cons a t ih =>
    simp only [List.sum_cons, List.length_cons]
    have ha := h a (by simp)
    have ht := ih (fun x hx => h x (by simp [hx]))
    calc a + t.sum ≤ c + c * t.length := Nat.add_le_add ha ht
    _ = c * (t.length + 1) := by ring

/-- The driver's sum fits in a `u64`: no overflow occurs in `main`. -/
theorem mainSum_lt : mainSum < 2 ^ 64 := by
  have hle : mainSum ≤ 2000000 * 1999999 := by
    have h1 : ∀ x ∈ (List.range' 1 1999999).filter FastNonLinearPrimality.is_prime,
        x ≤ 2000000 := by
      intro x hx
      have hx' := List.mem_of_mem_filter hx
      rw [List.mem_range'] at hx'
      obtain ⟨i, hi, rfl⟩ := hx'
      omega
    have h2 := list_sum_le_mul h1
    have h3 : ((List.range' 1 1999999).filter FastNonLinearPrimality.is_prime).length
        ≤ 1999999 := by
      have h4 := List.length_filter_le FastNonLinearPrimality.is_prime
        (List.range' 1 1999999)
      simpa using h4
    calc mainSum ≤ 2000000 *
          ((List.range' 1 1999999).filter FastNonLinearPrimality.is_prime).length := h2
    _ ≤ 2000000 * 1999999 := Nat.mul_le_mul_left _ h3
  calc mainSum ≤ 2000000 * 1999999 := hle
  _ < 2 ^ 64 := by norm_num

/-! ## Instrumentation coherence -/

/-- The instrumented `FastLinearPrimality.is_primeCount` computes the same
verdict as `FastLinearPrimality.is_prime`. -/
theorem fastLinear_is_primeCount_fst (n : Nat) :
    (FastLinearPrimality.is_primeCount n).1 = FastLinearPrimality.is_prime n := by
  match n with
  | 0 => rfl
  | 1 => rfl
  | 2 => rfl
  | 3 => rfl
  | m + 4 =>
    show (if (m + 4) &&& 1 = 0 then ((false : Bool), (0 : Nat))
          else FastLinearPrimality.oddTrialCount (m + 4) 3 ((m + 4) / 3)).1 =
      (if (m + 4) &&& 1 = 0 then false
       else FastLinearPrimality.internal_is_prime (m + 4))
    by_cases hev : (m + 4) &&& 1 = 0
    · rw [if_pos hev, if_pos hev]
    · rw [if_neg hev, if_neg hev]
      exact oddTrialCount_fst (m + 4) 3 ((m + 4) / 3)

/-- The instrumented `FastNonLinearPrimality.is_primeCount` computes the same
verdict as `FastNonLinearPrimality.is_prime`. -/
theorem fastNonLinear_is_primeCount_fst (n : Nat) :
    (FastNonLinearPrimality.is_primeCount n).1 = FastNonLinearPrimality.is_prime n := by
  match n with
  | 0 => rfl
  | 1 => rfl
  | 2 => rfl
  | 3 => rfl
  | m + 4 =>
    show (if (m + 4) &&& 1 = 0 then ((false : Bool), (0 : Nat))
          else FastLinearPrimality.oddTrialCount (m + 4) 3 (Nat.sqrt (m + 4) + 1)).1 =
      (if (m + 4) &&& 1 = 0 then false
       else FastNonLinearPrimality.internal_is_prime (m + 4))
    by_cases hev : (m + 4) &&& 1 = 0
    · rw [if_pos hev, if_pos hev]
    · rw [if_neg hev, if_neg hev]
      exact oddTrialCount_fst (m + 4) 3 (Nat.sqrt (m + 4) + 1)

/-! ## Claim theorems -/

/-- Claim C1: for every `n` in `[1, 1000]`, each implemented strategy's
`is_prime(n)` (NaivePrimality, NaivePrimalityWithRangeLimit,
FastLinearPrimality, NaivePrimalityWithNonLinearRangeLimit,
FastNonLinearPrimality) equals the sieve-backed oracle's `is_prime(n)`
(the sieve of the test harness is built with limit 1000). -/
theorem claim_C1 (n : Nat) (h1 : 1 ≤ n) (h2 : n ≤ 1000) :
    NaivePrimality.is_prime n = SievePrimality.is_prime 1000 n ∧
    NaivePrimalityWithRangeLimit.is_prime n = SievePrimality.is_prime 1000 n ∧
    FastLinearPrimality.is_prime n = SievePrimality.is_prime 1000 n ∧
    NaivePrimalityWithNonLinearRangeLimit.is_prime n = SievePrimality.is_prime 1000 n ∧
    FastNonLinearPrimality.is_prime n = SievePrimality.is_prime 1000 n :=
  ⟨naive_is_prime_eq h1, rangeLimit_is_prime_eq h1, fastLinear_is_prime_eq h1,
    nonLinear_is_prime_eq h1, fastNonLinear_is_prime_eq h1⟩

/-- Witness for C1 at the concrete input `n = 10`. -/
theorem claim_C1_witness :
    1 ≤ 10 ∧ 10 ≤ 1000 ∧
      (NaivePrimality.is_prime 10 = SievePrimality.is_prime 1000 10 ∧
       NaivePrimalityWithRangeLimit.is_prime 10 = SievePrimality.is_prime 1000 10 ∧
       FastLinearPrimality.is_prime 10 = SievePrimality.is_prime 1000 10 ∧
       NaivePrimalityWithNonLinearRangeLimit.is_prime 10 = SievePrimality.is_prime 1000 10 ∧
       FastNonLinearPrimality.is_prime 10 = SievePrimality.is_prime 1000 10) :=
  ⟨by decide, by decide, claim_C1 10 (by decide) (by decide)⟩

/-- Claim C2: the driver's sum over `n` in `[1, 2_000_000)` of the `n` its
oracle reports prime is the same value whichever of the five implemented
strategies is wired in as the filter. -/
theorem claim_C2 :
    driverSum NaivePrimality.is_prime = driverSum FastNonLinearPrimality.is_prime ∧
    driverSum NaivePrimalityWithRangeLimit.is_prime
      = driverSum FastNonLinearPrimality.is_prime ∧
    driverSum FastLinearPrimality.is_prime = driverSum FastNonLinearPrimality.is_prime ∧
    driverSum NaivePrimalityWithNonLinearRangeLimit.is_prime
      = driverSum FastNonLinearPrimality.is_prime := by
  have hRef := driverSum_congr (fun n h => fastNonLinear_is_prime_eq (n := n) h)
  exact ⟨(driverSum_congr (fun n h => naive_is_prime_eq h)).trans hRef.symm,
    (driverSum_congr (fun n h => rangeLimit_is_prime_eq h)).trans hRef.symm,
    (driverSum_congr (fun n h => fastLinear_is_prime_eq h)).trans hRef.symm,
    (driverSum_congr (fun n h => nonLinear_is_prime_eq h)).trans hRef.symm⟩

/-- Claim C3: the program's single line of standard output is the decimal
value of the sum of all `n` in `[1, 2_000_000)` that are prime, i.e. the sum
of all primes below 2,000,000 — a fixed deterministic value — and that sum
fits in a 64-bit unsigned integer. -/
theorem claim_C3 :
    mainOutput =
      toString (((List.range' 1 1999999).filter fun n => decide (Nat.Prime n)).sum)
        ++ "\n" ∧
    mainSum < 2 ^ 64 := by
  refine ⟨?_, mainSum_lt⟩
  show toString mainSum ++ "\n" = _
  have h : mainSum = driverSum (fun n => decide (Nat.Prime n)) :=
    driverSum_congr (fun n h => fastNonLinear_is_prime_eq h)
  rw [h]
  rfl

/-- Counterexample to claim C4 as stated: at the non-negative input `n = 0`
`NaivePrimality::is_prime` returns `true` (its trial-division loop over
`2..0` is empty), yet 0 is not prime. -/
theorem claim_C4_counterexample :
    NaivePrimality.is_prime 0 = true ∧ ¬ Nat.Prime 0 := by
  constructor
  · show trialBelow 0 2 0 = true
    rw [trialBelow_unfold, if_neg (by omega)]
  · exact Nat.not_prime_zero

/-- Claim C4 (amended): for every positive integer `n`,
`NaivePrimality.is_prime(n)` returns whether `n` is prime, computed for
`n > 2` by trial-dividing `n` by every integer in `[2, n)` and reporting
composite exactly when some such integer divides `n` evenly.  (The original
claim said "every non-negative integer"; it fails at `n = 0`, where the
empty loop makes the function return `true`.) -/
theorem claim_C4_amended (n : Nat) (h : 1 ≤ n) :
    NaivePrimality.is_prime n = decide (Nat.Prime n) ∧
      (2 < n →
        (NaivePrimality.is_prime n = false ↔ ∃ i, 2 ≤ i ∧ i < n ∧ n % i = 0)) := by
  refine ⟨naive_is_prime_eq h, fun h2 => ?_⟩
  obtain ⟨m, rfl⟩ : ∃ m, n = m + 3 := ⟨n - 3, by omega⟩
  show trialBelow (m + 3) 2 (m + 3) = false ↔ _
  rw [Bool.eq_false_iff, Ne, trialBelow_eq_true]
  push_neg
  constructor
  · rintro ⟨j, hj2, hjlt, hmod⟩
    exact ⟨j, hj2, hjlt, hmod⟩
  · rintro ⟨j, hj2, hjlt, hmod⟩
    exact ⟨j, hj2, hjlt, hmod⟩

/-- Witness for the amended C4 at the concrete input `n = 9`. -/
theorem claim_C4_amended_witness :
    1 ≤ 9 ∧
      (NaivePrimality.is_prime 9 = decide (Nat.Prime 9) ∧
        (2 < 9 →
          (NaivePrimality.is_prime 9 = false ↔ ∃ i, 2 ≤ i ∧ i < 9 ∧ 9 % i = 0))) :=
  ⟨by decide, claim_C4_amended 9 (by decide)⟩

/-- Claim C5: every implemented strategy returns `false` at 1, `true` at 2 and
`false` at 4; the strategies that special-case 3 (FastLinearPrimality and
FastNonLinearPrimality) return `true` at 3. -/
theorem claim_C5 :
    (NaivePrimality.is_prime 1 = false ∧ NaivePrimality.is_prime 2 = true ∧
      NaivePrimality.is_prime 4 = false) ∧
    (NaivePrimalityWithRangeLimit.is_prime 1 = false ∧
      NaivePrimalityWithRangeLimit.is_prime 2 = true ∧
      NaivePrimalityWithRangeLimit.is_prime 4 = false) ∧
    (FastLinearPrimality.is_prime 1 = false ∧ FastLinearPrimality.is_prime 2 = true ∧
      FastLinearPrimality.is_prime 4 = false ∧ FastLinearPrimality.is_prime 3 = true) ∧
    (NaivePrimalityWithNonLinearRangeLimit.is_prime 1 = false ∧
      NaivePrimalityWithNonLinearRangeLimit.is_prime 2 = true ∧
      NaivePrimalityWithNonLinearRangeLimit.is_prime 4 = false) ∧
    (FastNonLinearPrimality.is_prime 1 = false ∧ FastNonLinearPrimality.is_prime 2 = true ∧
      FastNonLinearPrimality.is_prime 4 = false ∧ FastNonLinearPrimality.is_prime 3 = true) := by
  refine ⟨⟨rfl, rfl, ?_⟩, ⟨rfl, rfl, ?_⟩, ⟨rfl, rfl, ?_, rfl⟩, ⟨rfl, rfl, ?_⟩,
    ⟨rfl, rfl, ?_, rfl⟩⟩
  · show trialBelow 4 2 4 = false
    rw [trialBelow_unfold, if_pos (by omega), if_pos (by omega)]
  · show trialUpto 4 2 (4 / 2) = false
    rw [trialUpto_unfold, if_pos (by omega), if_pos (by omega)]
  · show (if 4 &&& 1 = 0 then false else FastLinearPrimality.internal_is_prime 4) = false
    rw [if_pos (by decide)]
  · have h4 : Nat.sqrt 4 = 2 := by
      rw [show (4 : Nat) = 2 * 2 from rfl, Nat.sqrt_eq]
    show trialUpto 4 2 (Nat.sqrt 4 + 1) = false
    rw [h4, trialUpto_unfold, if_pos (by omega), if_pos (by omega)]
  · show (if 4 &&& 1 = 0 then false else FastNonLinearPrimality.internal_is_prime 4) = false
    rw [if_pos (by decide)]

/-- Claim C7: for the odd-step strategies, every even `n > 2` returns `false`
with the evenness branch deciding the result and the `TestRange`
trial-division loop never entered: the instrumented variants (which agree
with the originals, `fastLinear_is_primeCount_fst` /
`fastNonLinear_is_primeCount_fst`) record zero trial divisions. -/
theorem claim_C7 (n : Nat) (h2 : 2 < n) (he : n % 2 = 0) :
    FastLinearPrimality.is_prime n = false ∧
    FastLinearPrimality.is_primeCount n = (false, 0) ∧
    FastNonLinearPrimality.is_prime n = false ∧
    FastNonLinearPrimality.is_primeCount n = (false, 0) := by
  obtain ⟨m, rfl⟩ : ∃ m, n = m + 4 := ⟨n - 4, by omega⟩
  have hand : (m + 4) &&& 1 = 0 := by
    rw [Nat.and_one_is_mod]
    omega
  refine ⟨?_, ?_, ?_, ?_⟩
  · show (if (m + 4) &&& 1 = 0 then false
          else FastLinearPrimality.internal_is_prime (m + 4)) = false
    rw [if_pos hand]
  · show (if (m + 4) &&& 1 = 0 then ((false : Bool), (0 : Nat))
          else FastLinearPrimality.oddTrialCount (m + 4) 3 ((m + 4) / 3)) = (false, 0)
    rw [if_pos hand]
  · show (if (m + 4) &&& 1 = 0 then false
          else FastNonLinearPrimality.internal_is_prime (m + 4)) = false
    rw [if_pos hand]
  · show (if (m + 4) &&& 1 = 0 then ((false : Bool), (0 : Nat))
          else FastLinearPrimality.oddTrialCount (m + 4) 3 (Nat.sqrt (m + 4) + 1))
        = (false, 0)
    rw [if_pos hand]

/-- Witness for C7 at the concrete even input `n = 10`. -/
theorem claim_C7_witness :
    2 < 10 ∧ 10 % 2 = 0 ∧
      (FastLinearPrimality.is_prime 10 = false ∧
       FastLinearPrimality.is_primeCount 10 = (false, 0) ∧
       FastNonLinearPrimality.is_prime 10 = false ∧
       FastNonLinearPrimality.is_primeCount 10 = (false, 0)) :=
  ⟨by decide, by decide, claim_C7 10 (by decide) (by decide)⟩

/-- Claim C8: the placeholder strategy has no working body; invoking it never
produces an answer — in the embedding its result is always `none` (the
distinguished abort), never `some b` for any boolean verdict `b`. -/
theorem claim_C8 (n : Nat) :
    UnimplementedPrimality.is_prime n = none ∧
      ∀ b : Bool, UnimplementedPrimality.is_prime n ≠ some b :=
  ⟨rfl, fun _ h => Option.noConfusion h⟩

/-- Claim C9: on any oracle instance of any strategy (for the sieve: built with
any limit), two successive calls of `is_prime` on the same `n` return the same
result; queries do not mutate the instance (the Rust methods take `&self` on
state-free structs, so in the embedding a repeated call is a repeated
application of the same function). -/
theorem claim_C9 (limit n : Nat) :
    (twoCalls NaivePrimality.is_prime n).1 = (twoCalls NaivePrimality.is_prime n).2 ∧
    (twoCalls NaivePrimalityWithRangeLimit.is_prime n).1
      = (twoCalls NaivePrimalityWithRangeLimit.is_prime n).2 ∧
    (twoCalls FastLinearPrimality.is_prime n).1
      = (twoCalls FastLinearPrimality.is_prime n).2 ∧
    (twoCalls NaivePrimalityWithNonLinearRangeLimit.is_prime n).1
      = (twoCalls NaivePrimalityWithNonLinearRangeLimit.is_prime n).2 ∧
    (twoCalls FastNonLinearPrimality.is_prime n).1
      = (twoCalls FastNonLinearPrimality.is_prime n).2 ∧
    (twoCalls (SievePrimality.is_prime limit) n).1
      = (twoCalls (SievePrimality.is_prime limit) n).2 :=
  ⟨rfl, rfl, rfl, rfl, rfl, rfl⟩

/-- Claim C10: the strategies disagree at input 0: the three naive/range-limit
strategies return `true` (their trial-division loops are empty at 0), while
the two odd-step strategies return `false` (0 is caught by the evenness
branch). -/
theorem claim_C10 :
    NaivePrimality.is_prime 0 = true ∧
    NaivePrimalityWithRangeLimit.is_prime 0 = true ∧
    NaivePrimalityWithNonLinearRangeLimit.is_prime 0 = true ∧
    FastLinearPrimality.is_prime 0 = false ∧
    FastNonLinearPrimality.is_prime 0 = false := by
  refine ⟨?_, ?_, ?_, rfl, rfl⟩
  · show trialBelow 0 2 0 = true
    rw [trialBelow_unfold, if_neg (by omega)]
  · show trialUpto 0 2 (0 / 2) = true
    rw [trialUpto_unfold, if_neg (by omega)]
  · show trialUpto 0 2 (Nat.sqrt 0 + 1) = true
    rw [Nat.sqrt_zero, trialUpto_unfold, if_neg (by omega)]
